import Mathlib

/-!
Verification of the testmon change-impact core against its specification.

The repository ships the pytest plugin (`testmon/pytest_testmon.py`) and the
core's test suite (`test/test_core.py`).  The core module `testmon_core`
itself (functions `stable`, `flip_dictionary`, `node_data_to_test_files`,
`checksums_to_blob`, `blob_to_checksums`, class `SourceTree`) is imported by
both but its file is not part of the sources here, so those operations are
modelled from the specification.  The plugin hooks (`pytest_runtest_protocol`,
`get_failing`, `report_from_db`, `pytest_runtestloop`) are translated
directly from `testmon/pytest_testmon.py`.
-/

namespace Testmon

/-- Association-list lookup: the first entry whose key equals `k`, mirroring
a Python dictionary read. -/
def lookupA {β : Type} : List (String × β) → String → Option β
  | [], _ => none
  | p :: rest, k => if p.1 = k then some p.2 else lookupA rest k

/-- Association-list in-place update: every entry keyed `k` gets value `v`,
mirroring a Python dictionary write of an existing key. -/
def updateA {β : Type} (l : List (String × β)) (k : String) (v : β) : List (String × β) :=
  l.map (fun p => if p.1 = k then (k, v) else p)

@[simp] theorem lookupA_nil {β : Type} (k : String) : lookupA ([] : List (String × β)) k = none := rfl

@[simp] theorem lookupA_cons {β : Type} (p : String × β) (rest : List (String × β)) (k : String) :
    lookupA (p :: rest) k = if p.1 = k then some p.2 else lookupA rest k := rfl

theorem lookupA_isSome_iff {β : Type} (l : List (String × β)) (k : String) :
    (lookupA l k).isSome = true ↔ k ∈ l.map Prod.fst := by
  induction l with
  | nil => simp
  | cons p rest ih =>
    simp only [List.map_cons, List.mem_cons, lookupA_cons]
    by_cases h : p.1 = k
    · simp [h]
    · rw [if_neg h]
      rw [ih]
      constructor
      · exact fun hk => Or.inr hk
      · rintro (hk | hk)
        · exact absurd hk.symm h
        · exact hk

theorem lookupA_eq_none_iff {β : Type} (l : List (String × β)) (k : String) :
    lookupA l k = none ↔ k ∉ l.map Prod.fst := by
  rw [← lookupA_isSome_iff]
  cases lookupA l k <;> simp

theorem lookupA_of_mem_nodup {β : Type} {l : List (String × β)} {k : String} {v : β}
    (hnd : (l.map Prod.fst).Nodup) (hm : (k, v) ∈ l) : lookupA l k = some v := by
  induction l with
  | nil => cases hm
  | cons p rest ih =>
    simp only [List.map_cons, List.nodup_cons] at hnd
    rcases List.mem_cons.mp hm with hm' | hm'
    · simp [← hm']
    · have hk : k ∈ rest.map Prod.fst := List.mem_map.mpr ⟨(k, v), hm', rfl⟩
      have hne : p.1 ≠ k := fun h => hnd.1 (h ▸ hk)
      simp only [lookupA_cons, if_neg hne]
      exact ih hnd.2 hm'

theorem lookupA_updateA_self {β : Type} (l : List (String × β)) (k : String) (v : β) :
    lookupA (updateA l k v) k = (lookupA l k).map (fun _ => v) := by
  induction l with
  | nil => simp [updateA]
  | cons p rest ih =>
    simp only [updateA, List.map_cons] at ih ⊢
    by_cases h : p.1 = k
    · simp [h]
    · simp only [if_neg h, lookupA_cons, if_neg h]
      exact ih

theorem lookupA_updateA_ne {β : Type} (l : List (String × β)) (k k' : String) (v : β)
    (h : k ≠ k') : lookupA (updateA l k v) k' = lookupA l k' := by
  induction l with
  | nil => simp [updateA]
  | cons p rest ih =>
    by_cases hp : p.1 = k
    · simp [updateA, hp, h] at ih ⊢
      exact ih
    · simp only [updateA, List.map_cons, if_neg hp] at ih ⊢
      by_cases hk : p.1 = k' <;> simp [hk, ih]

theorem updateA_keys {β : Type} (l : List (String × β)) (k : String) (v : β) :
    (updateA l k v).map Prod.fst = l.map Prod.fst := by
  induction l with
  | nil => rfl
  | cons p rest ih =>
    by_cases h : p.1 = k <;> simp [updateA, h] at ih ⊢ <;> exact ih

/-- Errors of the core.  Modelled from the spec: `MissingSource` (a tracked
file no longer exists when its content is requested) and `CorruptData` (a
persisted checksum blob whose length is not a multiple of the fixed width). -/
inductive SourceError where
  | missingSource : String → SourceError
  | corruptData : SourceError
deriving DecidableEq

/-- Modelled from the spec: `encode(sequence<uint32>) → bytes` of exactly
4 bytes per value, fixed width, input order preserved; each checksum is laid
out as 4 little-endian bytes, concatenated with no separators (the
`checksums_to_blob` of `testmon_core`, absent from the sources). -/
def checksums_to_blob : List Nat → List Nat
  | [] => []
  | c :: rest =>
      c % 256 :: c / 256 % 256 :: c / 65536 % 256 :: c / 16777216 % 256 ::
        checksums_to_blob rest

/-- Modelled from the spec: `decode(bytes) → sequence<uint32>`, failing with
a CorruptData error if the byte length is not a multiple of 4 (the
`blob_to_checksums` of `testmon_core`, absent from the sources). -/
def blob_to_checksums : List Nat → Except SourceError (List Nat)
  | [] => Except.ok []
  | b0 :: b1 :: b2 :: b3 :: rest =>
      (blob_to_checksums rest).map (fun l => (b0 + 256 * b1 + 65536 * b2 + 16777216 * b3) :: l)
  | _ => Except.error SourceError.corruptData

/-- C3: For every finite sequence of unsigned integers in [0, 2^32), decoding
the encoded blob returns the sequence unchanged and in the same order. -/
theorem blob_roundtrip (seq : List Nat) (h : ∀ c ∈ seq, c < 4294967296) :
    blob_to_checksums (checksums_to_blob seq) = Except.ok seq := by
  induction seq with
  | nil => rfl
  | cons c rest ih =>
    have hc : c < 4294967296 := h c (List.mem_cons_self c rest)
    have hrest := ih (fun x hx => h x (List.mem_cons_of_mem c hx))
    simp only [checksums_to_blob, blob_to_checksums, hrest, Except.map]
    have : c % 256 + 256 * (c / 256 % 256) + 65536 * (c / 65536 % 256) +
        16777216 * (c / 16777216 % 256) = c := by omega
    rw [this]

/-- Witness for C3 at the concrete input of `test_sqlite_assumption`. -/
theorem blob_roundtrip_witness :
    (∀ c ∈ [4294967295, 123456], c < 4294967296) ∧
      blob_to_checksums (checksums_to_blob [4294967295, 123456]) =
        Except.ok [4294967295, 123456] :=
  ⟨by decide, blob_roundtrip [4294967295, 123456] (by decide)⟩

/-- C4: the encoding is pinned to exactly 4 bytes per checksum, independent of
any host-native integer width. -/
theorem blob_length (seq : List Nat) (h : ∀ c ∈ seq, c < 4294967296) :
    (checksums_to_blob seq).length = 4 * seq.length := by
  induction seq with
  | nil => rfl
  | cons c rest ih =>
    have hrest := ih (fun x hx => h x (List.mem_cons_of_mem c hx))
    simp [checksums_to_blob, hrest]
    omega

/-- Witness for C4 at the concrete input of `test_sqlite_assumption`. -/
theorem blob_length_witness :
    (∀ c ∈ [4294967295, 123456], c < 4294967296) ∧
      (checksums_to_blob [4294967295, 123456]).length = 4 * 2 :=
  ⟨by decide, blob_length [4294967295, 123456] (by decide)⟩

/-- Checksums as persisted per (node, file): a sequence of checksum groups
(one group per block), flattened before comparison, as in the spec's
`flatten(delta[file])` and `oldChecksums (flattened)`. -/
abbrev Checksums := List (List Nat)

/-- `NodeFingerprint`: mapping `file path → checksums depended on`. -/
abbrev NodeFingerprint := List (String × Checksums)

/-- `NodesData`: mapping `node id → NodeFingerprint`. -/
abbrev NodesData := List (String × NodeFingerprint)

/-- `Delta`: mapping `file → new fingerprint`, containing only changed files. -/
abbrev Delta := List (String × Checksums)

/-- Flattening of a checksum group sequence. -/
def flatten (cs : Checksums) : List Nat := cs.flatten

/-- The characters of a node id before the first `::` separator. -/
def homeChars : List Char → List Char
  | [] => []
  | [c] => [c]
  | c1 :: c2 :: rest =>
      if c1 = ':' ∧ c2 = ':' then [] else c1 :: homeChars (c2 :: rest)

/-- `home_file` of `testmon_core` (absent from the sources): the test file a
node id belongs to, the part of the id before `::`, as pinned by
`test_ndt_f_tests` (`a.py::t1` lives in `a.py`). -/
def home_file (nodeid : String) : String := String.mk (homeChars nodeid.data)

/-- `node_data_to_test_files(nodesData) → file → set(node id)` of
`testmon_core` (absent from the sources): groups node ids by the node's home
test file, regardless of the fingerprint contents, as pinned by
`test_ndt_f_tests`/`test_ndt_f_tests2` (fingerprint-only files such as `gla`
are not keys of the result). -/
def node_data_to_test_files (nd : NodesData) (file : String) : List String :=
  (nd.filter (fun p => decide (home_file p.1 = file))).map Prod.fst

/-- All files referenced as a key in any node's fingerprint. -/
def allFilesOf (nd : NodesData) : List String :=
  ((nd.map (fun p => p.2.map Prod.fst)).flatten).dedup

/-- Modelled from the spec: the per-node scan of `stable` — `affected` starts
false; for each `(file, oldChecksums)` of the fingerprint, a file not in
`delta` contributes no instability; otherwise if the flattened old checksums
are not a subset of the flattened new checksums, the node is affected and
scanning stops. -/
def nodeAffected (delta : Delta) : NodeFingerprint → Bool
  | [] => false
  | (file, oldCks) :: rest =>
    match lookupA delta file with
    | none => nodeAffected delta rest
    | some newCks =>
        if (flatten oldCks).all (fun c => decide (c ∈ flatten newCks)) then
          nodeAffected delta rest
        else true

/-- Modelled from the spec: `stable(nodesData, delta) → (stableNodeIds,
stableFiles)`; a node is stable when the scan leaves it unaffected, and
`stableFiles` are the fingerprint-referenced files for which every dependent
node via `node_data_to_test_files` — the home-file index pinned by
`test_dependent_test_modules`/`test_dependent_test_modules2` — is stable and
the file is not itself in `delta` (the `stable` of `testmon_core`, absent
from the sources). -/
def stable (nd : NodesData) (delta : Delta) : List String × List String :=
  let stableN := (nd.filter (fun p => ! nodeAffected delta p.2)).map Prod.fst
  let stableF := (allFilesOf nd).filter (fun f =>
    ! decide (f ∈ delta.map Prod.fst) &&
      (node_data_to_test_files nd f).all (fun nid => decide (nid ∈ stableN)))
  (stableN, stableF)

theorem mem_node_data_to_test_files (nd : NodesData) (file n : String) :
    n ∈ node_data_to_test_files nd file ↔
      ∃ fp, (n, fp) ∈ nd ∧ home_file n = file := by
  simp only [node_data_to_test_files, List.mem_map, List.mem_filter,
    decide_eq_true_eq]
  constructor
  · rintro ⟨p, ⟨hp, hf⟩, rfl⟩
    exact ⟨p.2, hp, hf⟩
  · rintro ⟨fp, hp, hf⟩
    exact ⟨(n, fp), ⟨hp, hf⟩, rfl⟩

theorem mem_keys_filter {α : Type} {P : String × α → Bool} {l : List (String × α)}
    (h : (l.map Prod.fst).Nodup) {k : String} {v : α} (hm : (k, v) ∈ l) :
    k ∈ (l.filter P).map Prod.fst ↔ P (k, v) = true := by
  induction l with
  | nil => cases hm
  | cons p rest ih =>
    simp only [List.map_cons, List.nodup_cons] at h
    rcases List.mem_cons.mp hm with hm' | hm'
    · subst hm'
      have hnotin : k ∉ (rest.filter P).map Prod.fst := by
        intro hk
        obtain ⟨q, hq, hqk⟩ := List.mem_map.mp hk
        exact h.1 (List.mem_map.mpr ⟨q, (List.mem_filter.mp hq).1, hqk⟩)
      by_cases hP : P (k, v) = true
      · simp [List.filter_cons, hP]
      · simp only [Bool.not_eq_true] at hP
        simp only [List.filter_cons, hP, Bool.false_eq_true, if_false]
        exact iff_of_false hnotin (by simp [hP])
    · have hk : k ∈ rest.map Prod.fst := List.mem_map.mpr ⟨(k, v), hm', rfl⟩
      have hne : p.1 ≠ k := fun hh => h.1 (hh ▸ hk)
      rw [← ih h.2 hm']
      by_cases hP : P p = true
      · simp [List.filter_cons, hP, Ne.symm hne]
      · simp only [Bool.not_eq_true] at hP
        simp [List.filter_cons, hP]

theorem nodeAffected_eq_false_iff (delta : Delta) (fp : NodeFingerprint) :
    nodeAffected delta fp = false ↔
      ∀ file oldCks, (file, oldCks) ∈ fp →
        ∀ newCks, lookupA delta file = some newCks →
          ∀ c ∈ flatten oldCks, c ∈ flatten newCks := by
  induction fp with
  | nil => simp [nodeAffected]
  | cons p rest ih =>
    obtain ⟨file, oldCks⟩ := p
    cases hd : lookupA delta file with
    | none =>
      simp only [nodeAffected, hd, ih]
      constructor
      · intro hrest f o hm nw hnw c hc
        rcases List.mem_cons.mp hm with hm' | hm'
        · have hf : f = file := congrArg Prod.fst hm'
          subst hf
          rw [hd] at hnw
          cases hnw
        · exact hrest f o hm' nw hnw c hc
      · intro hall f o hm nw hnw c hc
        exact hall f o (List.mem_cons_of_mem _ hm) nw hnw c hc
    | some newCks =>
      by_cases hsub : ((flatten oldCks).all (fun c => decide (c ∈ flatten newCks))) = true
      · simp only [nodeAffected, hd, if_pos hsub, ih]
        simp only [List.all_eq_true, decide_eq_true_eq] at hsub
        constructor
        · intro hrest f o hm nw hnw c hc
          rcases List.mem_cons.mp hm with hm' | hm'
          · have hf : f = file := congrArg Prod.fst hm'
            have ho : o = oldCks := congrArg Prod.snd hm'
            subst hf
            subst ho
            rw [hd] at hnw
            cases hnw
            exact hsub c hc
          · exact hrest f o hm' nw hnw c hc
        · intro hall f o hm nw hnw c hc
          exact hall f o (List.mem_cons_of_mem _ hm) nw hnw c hc
      · simp only [nodeAffected, hd, if_neg hsub]
        refine iff_of_false (by simp) ?_
        intro hall
        simp only [List.all_eq_true, decide_eq_true_eq] at hsub
        push_neg at hsub
        obtain ⟨c, hc, hnc⟩ := hsub
        exact hnc (hall file oldCks (List.mem_cons_self _ _) newCks hd c hc)

/-- C1: `stable` includes a node in `stableNodeIds` iff for every
`(file, oldChecksums)` entry of its fingerprint whose file appears in
`delta`, the flattened old checksums are a subset of the flattened new
checksums of `delta[file]`. -/
theorem stable_node_iff (nd : NodesData) (delta : Delta) (n : String)
    (fp : NodeFingerprint) (hnd : (nd.map Prod.fst).Nodup) (hmem : (n, fp) ∈ nd) :
    n ∈ (stable nd delta).1 ↔
      ∀ file oldCks, (file, oldCks) ∈ fp →
        ∀ newCks, lookupA delta file = some newCks →
          ∀ c ∈ flatten oldCks, c ∈ flatten newCks := by
  show n ∈ (nd.filter (fun p => ! nodeAffected delta p.2)).map Prod.fst ↔ _
  rw [mem_keys_filter hnd hmem]
  simp only [Bool.not_eq_true']
  exact nodeAffected_eq_false_iff delta fp

/-- Witness for C1 at the data of `test_simple_change`: node2's dependencies
on the changed file survive, so it is stable. -/
theorem stable_node_iff_witness :
    (([("test_a.py::node1", [("test_a.py", [[201, 202]]), ("a.py", [[101, 102, 103]])]),
       ("test_b.py::node2", [("test_b.py", [[301, 302]]), ("a.py", [[101, 102, 151]])])] :
         NodesData).map Prod.fst).Nodup ∧
    (("test_b.py::node2", [("test_b.py", [[301, 302]]), ("a.py", [[101, 102, 151]])]) ∈
      ([("test_a.py::node1", [("test_a.py", [[201, 202]]), ("a.py", [[101, 102, 103]])]),
        ("test_b.py::node2", [("test_b.py", [[301, 302]]), ("a.py", [[101, 102, 151]])])] :
         NodesData)) ∧
    ("test_b.py::node2" ∈
        (stable
          [("test_a.py::node1", [("test_a.py", [[201, 202]]), ("a.py", [[101, 102, 103]])]),
           ("test_b.py::node2", [("test_b.py", [[301, 302]]), ("a.py", [[101, 102, 151]])])]
          [("a.py", [[101, 102, 151]])]).1 ↔
      ∀ file oldCks,
        (file, oldCks) ∈
          ([("test_b.py", [[301, 302]]), ("a.py", [[101, 102, 151]])] : NodeFingerprint) →
        ∀ newCks, lookupA [("a.py", [[101, 102, 151]])] file = some newCks →
          ∀ c ∈ flatten oldCks, c ∈ flatten newCks) :=
  ⟨by decide, by decide,
    stable_node_iff _ _ _ _ (by decide) (by decide)⟩

theorem stable_snd (nd : NodesData) (delta : Delta) :
    (stable nd delta).2 = (allFilesOf nd).filter (fun f =>
      ! decide (f ∈ delta.map Prod.fst) &&
        (node_data_to_test_files nd f).all
          (fun nid => decide (nid ∈ (stable nd delta).1))) := rfl

/-- The node data of `test_ndt_f_tests`: one node whose fingerprint
references its home file `a.py` and the fingerprint-only file `gla`. -/
def ndGla : NodesData := [("a.py::t1", [("a.py", [[1]]), ("gla", [[2]])])]

/-- Counterexample to C5 as stated, at the data of `test_ndt_f_tests`: the
(node, file) pair (`a.py::t1`, `gla`) is present in the fingerprint, yet
`gla` is not a key of `node_data_to_test_files`' result — the node is not
recorded under it and the file's node set is empty. -/
theorem node_data_to_test_files_counterexample :
    ("a.py::t1", [("a.py", [[1]]), ("gla", [[2]])]) ∈ ndGla ∧
    "gla" ∈ ([("a.py", [[1]]), ("gla", [[2]])] : NodeFingerprint).map Prod.fst ∧
    "a.py::t1" ∉ node_data_to_test_files ndGla "gla" ∧
    node_data_to_test_files ndGla "gla" = [] ∧
    node_data_to_test_files ndGla "a.py" = ["a.py::t1"] := by decide

/-- C5 (amended): `node_data_to_test_files` maps each home test file to the
set of node ids whose id names it as home file (the part of the node id
before `::`), regardless of the fingerprint contents; every node's home file
is a key of the result. -/
theorem node_data_to_test_files_spec (nd : NodesData) :
    (∀ file n, n ∈ node_data_to_test_files nd file ↔
        ∃ fp, (n, fp) ∈ nd ∧ home_file n = file) ∧
    (∀ n fp, (n, fp) ∈ nd → node_data_to_test_files nd (home_file n) ≠ []) := by
  refine ⟨fun file n => mem_node_data_to_test_files nd file n, ?_⟩
  intro n fp hn hempty
  have hmem : n ∈ node_data_to_test_files nd (home_file n) :=
    (mem_node_data_to_test_files nd (home_file n) n).mpr ⟨fp, hn, rfl⟩
  rw [hempty] at hmem
  cases hmem

/-- The dependency data of `test_dependent_test_modules`, with the changed
file's new fingerprint missing checksum 1. -/
def ndModules : NodesData :=
  [("test_a.py::test_1", [("test_a.py", [[1]]), ("test_b.py", [[3]])]),
   ("test_b.py::test_2", [("test_b.py", [[2]])])]

/-- The delta of `test_dependent_test_modules`: `test_a.py` changed and its
old block checksum is gone. -/
def deltaModules : Delta := [("test_a.py", [[99]])]

/-- Counterexample to C2 as stated, at the data of
`test_dependent_test_modules`: `test_b.py` is in `stableFiles` and not in
`delta`, yet the unstable node `test_a.py::test_1` references `test_b.py` in
its fingerprint — stability of a file does not require every
fingerprint-referencing node to be stable. -/
theorem stable_files_counterexample :
    "test_b.py" ∈ (stable ndModules deltaModules).2 ∧
    "test_b.py" ∉ deltaModules.map Prod.fst ∧
    ("test_a.py::test_1", [("test_a.py", [[1]]), ("test_b.py", [[3]])]) ∈ ndModules ∧
    "test_b.py" ∈
      ([("test_a.py", [[1]]), ("test_b.py", [[3]])] : NodeFingerprint).map Prod.fst ∧
    "test_a.py::test_1" ∉ (stable ndModules deltaModules).1 := by decide

/-- C2 (amended): `stableFiles` contains a (fingerprint-referenced) file iff
it is not a key of `delta` and every node whose home test file it is — the
dependents of the reverse index `node_data_to_test_files` — is in
`stableNodeIds`. -/
theorem stable_files_iff (nd : NodesData) (delta : Delta) (f : String)
    (hf : f ∈ allFilesOf nd) :
    f ∈ (stable nd delta).2 ↔
      (f ∉ delta.map Prod.fst ∧
        ∀ n fp, (n, fp) ∈ nd → home_file n = f → n ∈ (stable nd delta).1) := by
  rw [stable_snd, List.mem_filter]
  simp only [hf, true_and, Bool.and_eq_true, Bool.not_eq_true', decide_eq_false_iff_not,
    List.all_eq_true, decide_eq_true_eq]
  constructor
  · rintro ⟨h1, h2⟩
    refine ⟨h1, fun n fp hn hfk => h2 n ?_⟩
    exact (mem_node_data_to_test_files nd f n).mpr ⟨fp, hn, hfk⟩
  · rintro ⟨h1, h2⟩
    refine ⟨h1, fun n hn => ?_⟩
    obtain ⟨fp, hnfp, hfk⟩ := (mem_node_data_to_test_files nd f n).mp hn
    exact h2 n fp hnfp hfk

/-- Witness for the amended C2 at the data of
`test_dependent_test_modules`. -/
theorem stable_files_iff_witness :
    ("test_b.py" ∈ allFilesOf ndModules) ∧
      ("test_b.py" ∈ (stable ndModules deltaModules).2 ↔
        ("test_b.py" ∉ deltaModules.map Prod.fst ∧
          ∀ n fp, (n, fp) ∈ ndModules → home_file n = "test_b.py" →
            n ∈ (stable ndModules deltaModules).1)) :=
  ⟨by decide, stable_files_iff ndModules deltaModules "test_b.py" (by decide)⟩

/-- Modelled from the spec: `flip_dictionary(node → (file → checksums)) →
file → (node → checksums)`, a pure transposition of the two outer keys with
inner values carried through unchanged (the `flip_dictionary` of
`testmon_core`, absent from the sources). -/
def flip_dictionary {β : Type} (d : List (String × List (String × β))) :
    List (String × List (String × β)) :=
  (((d.map (fun p => p.2.map Prod.fst)).flatten).dedup).map
    (fun f => (f, d.filterMap (fun p => (lookupA p.2 f).map (fun v => (p.1, v)))))

/-- Two-level dictionary read. -/
def lookup2 {β : Type} (d : List (String × List (String × β))) (k1 k2 : String) :
    Option β :=
  (lookupA d k1).bind (fun inner => lookupA inner k2)

theorem mem_of_lookupA {β : Type} {l : List (String × β)} {k : String} {v : β}
    (h : lookupA l k = some v) : (k, v) ∈ l := by
  induction l with
  | nil => cases h
  | cons p rest ih =>
    obtain ⟨a, b⟩ := p
    by_cases hk : a = k
    · rw [lookupA_cons, if_pos hk] at h
      subst hk
      cases h
      exact List.mem_cons_self _ _
    · rw [lookupA_cons, if_neg hk] at h
      exact List.mem_cons_of_mem _ (ih h)

theorem lookupA_map_key {β : Type} (l : List String) (g : String → β) (k : String) :
    lookupA (l.map (fun f => (f, g f))) k = if k ∈ l then some (g k) else none := by
  induction l with
  | nil => simp
  | cons a rest ih =>
    by_cases h : a = k
    · subst h
      simp
    · have hne : ¬ k = a := fun hh => h hh.symm
      simp only [List.map_cons, lookupA_cons, if_neg h, ih]
      by_cases hk : k ∈ rest
      · rw [if_pos hk, if_pos (List.mem_cons_of_mem _ hk)]
      · rw [if_neg hk, if_neg (by simp [List.mem_cons, hne, hk])]

theorem lookupA_flip_entries {β : Type} {d : List (String × List (String × β))}
    (hnd : (d.map Prod.fst).Nodup) (f n : String) :
    lookupA (d.filterMap (fun p => (lookupA p.2 f).map (fun v => (p.1, v)))) n =
      (lookupA d n).bind (fun inner => lookupA inner f) := by
  induction d with
  | nil => simp
  | cons p rest ih =>
    simp only [List.map_cons, List.nodup_cons] at hnd
    cases hpf : lookupA p.2 f with
    | none =>
      simp only [List.filterMap_cons, hpf, Option.map_none']
      by_cases hn : p.1 = n
      · rw [lookupA_cons, if_pos hn, Option.some_bind, ← hn, hpf]
        rw [lookupA_eq_none_iff]
        intro hk
        obtain ⟨q, hq, hqn⟩ := List.mem_map.mp hk
        obtain ⟨r, hr, hre⟩ := List.mem_filterMap.mp hq
        cases hl : lookupA r.2 f with
        | none => rw [hl] at hre; cases hre
        | some v =>
          rw [hl] at hre
          cases hre
          exact hnd.1 (List.mem_map.mpr ⟨r, hr, hqn⟩)
      · rw [lookupA_cons, if_neg hn]
        exact ih hnd.2
    | some v =>
      simp only [List.filterMap_cons, hpf, Option.map_some']
      by_cases hn : p.1 = n
      · rw [lookupA_cons, if_pos hn, lookupA_cons, if_pos hn, Option.some_bind, hpf]
      · rw [lookupA_cons, if_neg hn, lookupA_cons, if_neg hn]
        exact ih hnd.2

theorem lookup2_flip {β : Type} (d : List (String × List (String × β)))
    (hnd : (d.map Prod.fst).Nodup) (f n : String) :
    lookup2 (flip_dictionary d) f n = lookup2 d n f := by
  unfold lookup2 flip_dictionary
  rw [lookupA_map_key]
  by_cases hf : f ∈ ((d.map (fun p => p.2.map Prod.fst)).flatten).dedup
  · rw [if_pos hf, Option.some_bind]
    exact lookupA_flip_entries hnd f n
  · rw [if_neg hf, Option.none_bind]
    symm
    cases hdn : lookupA d n with
    | none => simp
    | some inner =>
      rw [Option.some_bind]
      cases hif : lookupA inner f with
      | none => rfl
      | some v =>
        exfalso
        apply hf
        rw [List.mem_dedup, List.mem_flatten]
        refine ⟨inner.map Prod.fst, List.mem_map.mpr ⟨(n, inner), mem_of_lookupA hdn, rfl⟩, ?_⟩
        exact List.mem_map.mpr ⟨(f, v), mem_of_lookupA hif, rfl⟩

theorem flip_dictionary_keys_nodup {β : Type} (d : List (String × List (String × β))) :
    ((flip_dictionary d).map Prod.fst).Nodup := by
  have heq : (flip_dictionary d).map Prod.fst =
      ((d.map (fun p => p.2.map Prod.fst)).flatten).dedup := by
    unfold flip_dictionary
    rw [List.map_map]
    exact List.map_id _
  rw [heq]
  exact List.nodup_dedup _

/-- C9: `flip_dictionary` transposes the two outer key layers — the flipped
dictionary at (file, node) holds exactly what the original holds at
(node, file), inner values carried through unchanged — and applying it twice
returns the original mapping up to outer-key ordering (equality as nested
dictionaries). -/
theorem flip_dictionary_transposes {β : Type} (d : List (String × List (String × β)))
    (hnd : (d.map Prod.fst).Nodup) :
    (∀ f n, lookup2 (flip_dictionary d) f n = lookup2 d n f) ∧
    (∀ n f, lookup2 (flip_dictionary (flip_dictionary d)) n f = lookup2 d n f) := by
  refine ⟨fun f n => lookup2_flip d hnd f n, fun n f => ?_⟩
  exact (lookup2_flip (flip_dictionary d) (flip_dictionary_keys_nodup d) n f).trans
    (lookup2_flip d hnd f n)

/-- The nested dictionary of `test_flip`. -/
def ndFlip : List (String × List (String × List Nat)) :=
  [("X", [("a", [1, 2, 3]), ("b", [3, 4, 5])]), ("Y", [("b", [3, 6, 7])])]

/-- Witness for C9 at the data of `test_flip`. -/
theorem flip_dictionary_transposes_witness :
    ((ndFlip.map Prod.fst).Nodup) ∧
      ((∀ f n, lookup2 (flip_dictionary ndFlip) f n = lookup2 ndFlip n f) ∧
       (∀ n f, lookup2 (flip_dictionary (flip_dictionary ndFlip)) n f =
          lookup2 ndFlip n f)) :=
  ⟨by decide, flip_dictionary_transposes ndFlip (by decide)⟩

/-- Modelled from the spec: the `SourceTree` change-detection cache, a
mapping `file → (mtime, checksum)` mutated in place as files are inspected
(the `SourceTree` class of `testmon_core`, absent from the sources). -/
structure SourceTree where
  mtimes : List (String × Int)
  checksums : List (String × Nat)

/-- Modelled from the spec: the per-file step of `get_changed_files`, given
the filesystem `fs` reporting each file's current (mtime, content checksum):
equal mtime skips; equal recomputed checksum updates only the cached mtime
and reports nothing; otherwise the file is reported with its new fingerprint
and both caches are updated. -/
def sourceTreeStep (fs : String → Int × Nat) (f : String) (cachedM : Int)
    (st : SourceTree) : Option Nat × SourceTree :=
  if (fs f).1 = cachedM then (none, st)
  else if lookupA st.checksums f = some (fs f).2 then
    (none, { st with mtimes := updateA st.mtimes f (fs f).1 })
  else
    (some (fs f).2,
     { st with mtimes := updateA st.mtimes f (fs f).1,
               checksums := updateA st.checksums f (fs f).2 })

/-- The scan of all tracked files, threading the cache state. -/
def get_changed_files_aux (fs : String → Int × Nat) :
    List (String × Int) → SourceTree → List (String × Nat) × SourceTree
  | [], st => ([], st)
  | (f, m) :: rest, st =>
      match sourceTreeStep fs f m st with
      | (none, st1) => get_changed_files_aux fs rest st1
      | (some c, st1) =>
          ((f, c) :: (get_changed_files_aux fs rest st1).1,
           (get_changed_files_aux fs rest st1).2)

/-- Modelled from the spec: `get_changed_files() → mapping(file → new
fingerprint)`, containing only files whose content differs from the cached
checksum; the updated cache is returned alongside. -/
def get_changed_files (fs : String → Int × Nat) (st : SourceTree) :
    List (String × Nat) × SourceTree :=
  get_changed_files_aux fs st.mtimes st

theorem sourceTreeStep_frame (fs : String → Int × Nat) (g : String) (m : Int)
    (st : SourceTree) (f : String) (hfg : f ≠ g) :
    lookupA (sourceTreeStep fs g m st).2.mtimes f = lookupA st.mtimes f ∧
    lookupA (sourceTreeStep fs g m st).2.checksums f = lookupA st.checksums f := by
  unfold sourceTreeStep
  by_cases h1 : (fs g).1 = m
  · rw [if_pos h1]
    exact ⟨rfl, rfl⟩
  · rw [if_neg h1]
    by_cases h2 : lookupA st.checksums g = some (fs g).2
    · rw [if_pos h2]
      exact ⟨lookupA_updateA_ne _ _ _ _ (fun hh => hfg hh.symm), rfl⟩
    · rw [if_neg h2]
      exact ⟨lookupA_updateA_ne _ _ _ _ (fun hh => hfg hh.symm),
             lookupA_updateA_ne _ _ _ _ (fun hh => hfg hh.symm)⟩

theorem get_changed_files_aux_frame (fs : String → Int × Nat)
    (l : List (String × Int)) (f : String) (hf : f ∉ l.map Prod.fst) :
    ∀ st : SourceTree,
      f ∉ (get_changed_files_aux fs l st).1.map Prod.fst ∧
      lookupA (get_changed_files_aux fs l st).2.mtimes f = lookupA st.mtimes f ∧
      lookupA (get_changed_files_aux fs l st).2.checksums f = lookupA st.checksums f := by
  revert hf
  induction l with
  | nil =>
    intro _ st
    simp [get_changed_files_aux]
  | cons p rest ih =>
    intro hf st
    obtain ⟨g, mg⟩ := p
    simp only [List.map_cons, List.mem_cons] at hf
    push_neg at hf
    have hfg : f ≠ g := hf.1
    have hsf := sourceTreeStep_frame fs g mg st f hfg
    rcases hs : sourceTreeStep fs g mg st with ⟨r, st1⟩
    rw [hs] at hsf
    cases r with
    | none =>
      simp only [get_changed_files_aux, hs]
      have hrec := ih hf.2 st1
      exact ⟨hrec.1, hrec.2.1.trans hsf.1, hrec.2.2.trans hsf.2⟩
    | some cv =>
      simp only [get_changed_files_aux, hs]
      have hrec := ih hf.2 st1
      refine ⟨?_, hrec.2.1.trans hsf.1, hrec.2.2.trans hsf.2⟩
      simp only [List.map_cons, List.mem_cons]
      push_neg
      exact ⟨hfg, hrec.1⟩

theorem get_changed_files_aux_spec (fs : String → Int × Nat)
    (l : List (String × Int)) (f : String) (m : Int) (c : Nat)
    (hl : (l.map Prod.fst).Nodup) (hmem : (f, m) ∈ l)
    (h1 : (fs f).1 ≠ m) (h2 : (fs f).2 = c) :
    ∀ st : SourceTree, (lookupA st.mtimes f).isSome = true →
      lookupA st.checksums f = some c →
      f ∉ (get_changed_files_aux fs l st).1.map Prod.fst ∧
      lookupA (get_changed_files_aux fs l st).2.mtimes f = some (fs f).1 ∧
      lookupA (get_changed_files_aux fs l st).2.checksums f = some c := by
  revert hl hmem
  induction l with
  | nil =>
    intro _ hmem
    cases hmem
  | cons p rest ih =>
    intro hl hmem st hmt hck
    obtain ⟨g, mg⟩ := p
    simp only [List.map_cons, List.nodup_cons] at hl
    rcases List.mem_cons.mp hmem with hm' | hm'
    · have hfg : f = g := congrArg Prod.fst hm'
      have hmm : m = mg := congrArg Prod.snd hm'
      subst hfg
      subst hmm
      have hstep : sourceTreeStep fs f m st =
          (none, { st with mtimes := updateA st.mtimes f (fs f).1 }) := by
        unfold sourceTreeStep
        rw [if_neg h1, if_pos (by rw [hck, h2])]
      simp only [get_changed_files_aux, hstep]
      have hframe := get_changed_files_aux_frame fs rest f hl.1
        { st with mtimes := updateA st.mtimes f (fs f).1 }
      refine ⟨hframe.1, ?_, ?_⟩
      · rw [hframe.2.1]
        show lookupA (updateA st.mtimes f (fs f).1) f = some (fs f).1
        rw [lookupA_updateA_self]
        obtain ⟨v, hv⟩ := Option.isSome_iff_exists.mp hmt
        rw [hv]
        rfl
      · rw [hframe.2.2]
        exact hck
    · have hfk : f ∈ rest.map Prod.fst := List.mem_map.mpr ⟨(f, m), hm', rfl⟩
      have hgf : g ≠ f := fun hh => hl.1 (hh ▸ hfk)
      have hfg : f ≠ g := fun hh => hgf hh.symm
      have hsf := sourceTreeStep_frame fs g mg st f hfg
      rcases hs : sourceTreeStep fs g mg st with ⟨r, st1⟩
      rw [hs] at hsf
      cases r with
      | none =>
        simp only [get_changed_files_aux, hs]
        exact ih hl.2 hm' st1 (by rw [hsf.1]; exact hmt) (by rw [hsf.2]; exact hck)
      | some cv =>
        simp only [get_changed_files_aux, hs]
        have hrec := ih hl.2 hm' st1 (by rw [hsf.1]; exact hmt) (by rw [hsf.2]; exact hck)
        refine ⟨?_, hrec.2.1, hrec.2.2⟩
        simp only [List.map_cons, List.mem_cons]
        push_neg
        exact ⟨hfg, hrec.1⟩

/-- C6: a tracked file whose mtime changed but whose recomputed checksum
equals the cached one is omitted from `get_changed_files()`, its cached
mtime is updated to the new value, and its cached checksum is unchanged. -/
theorem get_changed_files_touch (fs : String → Int × Nat) (st : SourceTree)
    (f : String) (m : Int) (c : Nat)
    (hl : (st.mtimes.map Prod.fst).Nodup) (hmem : (f, m) ∈ st.mtimes)
    (hck : lookupA st.checksums f = some c)
    (h1 : (fs f).1 ≠ m) (h2 : (fs f).2 = c) :
    f ∉ (get_changed_files fs st).1.map Prod.fst ∧
    lookupA (get_changed_files fs st).2.mtimes f = some (fs f).1 ∧
    lookupA (get_changed_files fs st).2.checksums f = some c := by
  have hmt : (lookupA st.mtimes f).isSome = true :=
    (lookupA_isSome_iff _ _).mpr (List.mem_map.mpr ⟨(f, m), hmem, rfl⟩)
  exact get_changed_files_aux_spec fs st.mtimes f m c hl hmem h1 h2 st hmt hck

/-- The cache of `test_basic_checksum` before the touch-only mtime change. -/
def stTouch : SourceTree :=
  { mtimes := [("a.py", 100)], checksums := [("a.py", 55)] }

/-- The filesystem after `a_py.setmtime(1424880936)`: new mtime, same
content checksum. -/
def fsTouch : String → Int × Nat := fun _ => (1424880936, 55)

/-- Witness for C6 at the scenario of `test_basic_checksum`. -/
theorem get_changed_files_touch_witness :
    ((stTouch.mtimes.map Prod.fst).Nodup ∧ ("a.py", 100) ∈ stTouch.mtimes ∧
      lookupA stTouch.checksums "a.py" = some 55 ∧
      (fsTouch "a.py").1 ≠ 100 ∧ (fsTouch "a.py").2 = 55) ∧
    ("a.py" ∉ (get_changed_files fsTouch stTouch).1.map Prod.fst ∧
      lookupA (get_changed_files fsTouch stTouch).2.mtimes "a.py" =
        some (fsTouch "a.py").1 ∧
      lookupA (get_changed_files fsTouch stTouch).2.checksums "a.py" = some 55) :=
  ⟨⟨by decide, by decide, by decide, by decide, by decide⟩,
    get_changed_files_touch fsTouch stTouch "a.py" 100 55
      (by decide) (by decide) (by decide) (by decide) (by decide)⟩

/-- Modelled from the spec: `get_file(path)` reads content on demand and
fails with a MissingSource error if the file is absent (the
`SourceTree.get_file` of `testmon_core`, absent from the sources);
`contents` is the filesystem read returning `none` for an absent file. -/
def get_file (contents : String → Option String) (path : String) :
    Except SourceError String :=
  match contents path with
  | some code => Except.ok code
  | none => Except.error (SourceError.missingSource path)

/-- C7: requesting a file that does not exist fails with a MissingSource
error, returned to the caller rather than caught inside the core. -/
theorem get_file_missing (contents : String → Option String) (path : String)
    (h : contents path = none) :
    get_file contents path = Except.error (SourceError.missingSource path) := by
  simp [get_file, h]

/-- Witness for C7 at the scenario of `test_disappeared`. -/
theorem get_file_missing_witness :
    ((fun _ => (none : Option String)) "c.py" = none) ∧
      get_file (fun _ => none) "c.py" =
        Except.error (SourceError.missingSource "c.py") :=
  ⟨rfl, get_file_missing (fun _ => none) "c.py" rfl⟩

/-- State of the `TestmonCollect` plugin's tracer and persisted store:
whether tracing is active, and the node fingerprints written so far. -/
structure CollectState where
  tracing : Bool
  savedNodes : List (String × NodeFingerprint)

/-- `self.testmon.start()` of `pytest_testmon.py`. -/
def start (s : CollectState) : CollectState := { s with tracing := true }

/-- `self.testmon.stop()` of `pytest_testmon.py`: tracing ends, nothing is
persisted. -/
def stop (s : CollectState) : CollectState := { s with tracing := false }

/-- `self.testmon.stop_and_save(...)` of `pytest_testmon.py`: tracing ends
and the node's fingerprint is appended to the persisted store. -/
def stop_and_save (s : CollectState) (nodeid : String) (fp : NodeFingerprint) :
    CollectState :=
  { tracing := false, savedNodes := s.savedNodes ++ [(nodeid, fp)] }

/-- `TestmonCollect.pytest_runtest_protocol` of `pytest_testmon.py`: when the
item is a `Function` and collection is on, tracing starts around the run;
if the run ended with an exception whose class is a subclass of
`BaseException` (`excinfo = some isBaseExc`), tracing stops without saving,
otherwise the observed fingerprint is stopped-and-saved. -/
def pytest_runtest_protocol (isFunction shouldCollect : Bool)
    (excinfo : Option Bool) (nodeid : String) (fp : NodeFingerprint)
    (s : CollectState) : CollectState :=
  if isFunction && shouldCollect then
    match excinfo with
    | some isBaseExc =>
        if isBaseExc then stop (start s)
        else stop_and_save (start s) nodeid fp
    | none => stop_and_save (start s) nodeid fp
  else s

/-- C8: when the run protocol ends with a `BaseException` (an interrupted
node), the node's fingerprint is not written to the persisted store at all —
the store is exactly as before — and tracing is stopped without saving. -/
theorem interrupted_not_saved (isFunction shouldCollect : Bool) (nodeid : String)
    (fp : NodeFingerprint) (s : CollectState) :
    (pytest_runtest_protocol isFunction shouldCollect (some true) nodeid fp
        s).savedNodes = s.savedNodes ∧
    (pytest_runtest_protocol isFunction shouldCollect (some true) nodeid fp
        s).tracing = (if isFunction && shouldCollect then false else s.tracing) := by
  cases isFunction <;> cases shouldCollect <;>
    simp [pytest_runtest_protocol, start, stop]

/-- A serialized pytest report as stored per (node, phase). -/
structure TestReport where
  phase : String
  outcome : String
deriving DecidableEq

/-- `did_fail` of `pytest_testmon.py`: some stored phase report has outcome
"failed". -/
def did_fail (reports : List (String × TestReport)) : Bool :=
  reports.any (fun p => decide (p.2.outcome = "failed"))

/-- `get_failing` of `pytest_testmon.py`: the home files and the stored
reports of every node whose reports contain a failure. -/
def get_failing (home_file : String → String)
    (all_nodes : List (String × List (String × TestReport))) :
    List String × List (String × List (String × TestReport)) :=
  ((all_nodes.filter (fun p => did_fail p.2)).map (fun p => home_file p.1),
   all_nodes.filter (fun p => did_fail p.2))

/-- `TestmonSelect.report_from_db` of `pytest_testmon.py`: if the node has
stored failing reports, re-emit its setup, call and teardown phases (those
present) through the `pytest_runtest_logreport` hook, modelled as the list
of emitted reports. -/
def report_from_db (failing_nodes : List (String × List (String × TestReport)))
    (nodeid : String) : List TestReport :=
  let node_reports := (lookupA failing_nodes nodeid).getD []
  if node_reports.isEmpty then []
  else ["setup", "call", "teardown"].filterMap (fun ph => lookupA node_reports ph)

/-- Insertion into a sorted list of node ids. -/
def insertSorted (s : String) : List String → List String
  | [] => [s]
  | t :: rest => if s ≤ t then s :: t :: rest else t :: insertSorted s rest

/-- `sorted(...)` over node ids. -/
def sortStrings (l : List String) : List String := l.foldr insertSorted []

/-- `TestmonSelect.pytest_runtestloop` of `pytest_testmon.py`, after the
wrapped loop finishes: replay `report_from_db` for every deselected node id
in sorted order, modelled as the concatenated list of emitted reports. -/
def pytest_runtestloop (deselected : List String)
    (failing_nodes : List (String × List (String × TestReport))) : List TestReport :=
  ((sortStrings deselected).map (report_from_db failing_nodes)).flatten

theorem lookupA_filter {β : Type} {P : String × β → Bool} {l : List (String × β)}
    (h : (l.map Prod.fst).Nodup) (k : String) :
    lookupA (l.filter P) k =
      match lookupA l k with
      | some v => if P (k, v) then some v else none
      | none => none := by
  induction l with
  | nil => simp
  | cons p rest ih =>
    obtain ⟨a, b⟩ := p
    simp only [List.map_cons, List.nodup_cons] at h
    by_cases hk : a = k
    · subst hk
      by_cases hP : P (a, b) = true
      · simp [List.filter_cons, hP, lookupA_cons]
      · have hP' : P (a, b) = false := by
          simpa [Bool.not_eq_true] using hP
        have hnone : lookupA (rest.filter P) a = none := by
          rw [lookupA_eq_none_iff]
          intro hk2
          obtain ⟨q, hq, hqk⟩ := List.mem_map.mp hk2
          exact h.1 (List.mem_map.mpr ⟨q, (List.mem_filter.mp hq).1, hqk⟩)
        simp [List.filter_cons, hP', lookupA_cons, hnone]
    · by_cases hP : P (a, b) = true
      · simp [List.filter_cons, hP, lookupA_cons, hk, ih h.2]
      · have hP' : P (a, b) = false := by
          simpa [Bool.not_eq_true] using hP
        simp [List.filter_cons, hP', lookupA_cons, hk, ih h.2]

theorem report_from_db_eq (home_file : String → String)
    (all_nodes : List (String × List (String × TestReport)))
    (h : (all_nodes.map Prod.fst).Nodup) (nodeid : String) :
    report_from_db (get_failing home_file all_nodes).2 nodeid =
      match lookupA all_nodes nodeid with
      | some reps =>
          if did_fail reps then
            ["setup", "call", "teardown"].filterMap (fun ph => lookupA reps ph)
          else []
      | none => [] := by
  unfold report_from_db get_failing
  rw [lookupA_filter h]
  cases hd : lookupA all_nodes nodeid with
  | none => simp
  | some reps =>
    by_cases hf : did_fail reps = true
    · have hne : reps.isEmpty = false := by
        cases reps with
        | nil => simp [did_fail] at hf
        | cons q qs => rfl
      simp [hf, hne]
    · have hf' : did_fail reps = false := by
        simpa [Bool.not_eq_true] using hf
      simp [hf']

/-- C10: after the run loop, for every deselected node id in sorted order,
a node whose stored reports contain a failed phase has its stored setup,
call and teardown reports re-emitted in that order; deselected nodes with
no stored failing report contribute nothing. -/
theorem runtestloop_replays_failures (home_file : String → String)
    (all_nodes : List (String × List (String × TestReport)))
    (deselected : List String)
    (h : (all_nodes.map Prod.fst).Nodup) :
    pytest_runtestloop deselected (get_failing home_file all_nodes).2 =
      ((sortStrings deselected).map (fun nodeid =>
        match lookupA all_nodes nodeid with
        | some reps =>
            if did_fail reps then
              ["setup", "call", "teardown"].filterMap (fun ph => lookupA reps ph)
            else []
        | none => [])).flatten := by
  unfold pytest_runtestloop
  exact congrArg List.flatten
    (List.map_congr_left (fun nodeid _ => report_from_db_eq home_file all_nodes h nodeid))

/-- Stored reports of `sort_items`-style data: node t1 failed at call, node
t2 passed. -/
def allNodesReplay : List (String × List (String × TestReport)) :=
  [("test_a.py::t1", [("setup", ⟨"setup", "passed"⟩), ("call", ⟨"call", "failed"⟩)]),
   ("test_a.py::t2", [("call", ⟨"call", "passed"⟩)])]

/-- Witness for C10 at concrete stored reports. -/
theorem runtestloop_replays_failures_witness :
    ((allNodesReplay.map Prod.fst).Nodup) ∧
      pytest_runtestloop ["test_a.py::t2", "test_a.py::t1"]
          (get_failing (fun s => s) allNodesReplay).2 =
        ((sortStrings ["test_a.py::t2", "test_a.py::t1"]).map (fun nodeid =>
          match lookupA allNodesReplay nodeid with
          | some reps =>
              if did_fail reps then
                ["setup", "call", "teardown"].filterMap (fun ph => lookupA reps ph)
              else []
          | none => [])).flatten :=
  ⟨by decide,
    runtestloop_replays_failures (fun s => s) allNodesReplay
      ["test_a.py::t2", "test_a.py::t1"] (by decide)⟩

end Testmon
